import Mathlib

/-!
Verification of the ID3v2 tag codec and file-rewrite engine (`id3.go`).

This file shallowly embeds the byte-level codecs, the frame codec, the tag
store and the save engine of the source into Lean.  Bytes are modelled as
`Nat` (every value produced stays below 256 where the source produces bytes),
byte slices as `List Nat`, Go's `FramesMap` as an association list in a fixed
deterministic order (Go map iteration order is unspecified; the spec requires
only that it be stable), and file I/O as explicit state passing.  Fallible
writes are modelled with an explicit budget of successful write calls, so a
failure can occur at any write boundary, exactly as a Go `io.Writer` error
can.

Each definition is a direct translation of the correspondingly named Go
function.  Comments note the few places where Go would panic at runtime
(out-of-range slice indexing) and what the model does there instead; no
theorem below exercises those inputs.
-/

/-! ## Synchsafe integer codec -/

/-- Translation of `desynchsafeInt(b [4]byte) int`: each byte contributes its
low bits shifted into place, most significant byte first.  The `[4]byte` is
modelled as a list read at indices 0..3. -/
def desynchsafeInt (b : List Nat) : Nat :=
  (b.getD 0 0) <<< 21 ||| (b.getD 1 0) <<< 14 ||| (b.getD 2 0) <<< 7 ||| b.getD 3 0

/-- Translation of `synchsafeInt(i int) int`, mask for mask.  Note the fourth
mask in the source is `0xfe0000` (bits 17..23), not `0xfe00000`. -/
def synchsafeInt (i : Nat) : Nat :=
  (i &&& 0x7f) |||
    ((i &&& 0x3f80) <<< 1) |||
    ((i &&& 0x1fc000) <<< 2) |||
    ((i &&& 0xfe0000) <<< 3)

/-- Translation of `intToBytes(i int) []byte`. -/
def intToBytes (i : Nat) : List Nat :=
  [(i &&& 0xff000000) >>> 24,
   (i &&& 0xff0000) >>> 16,
   (i &&& 0xff00) >>> 8,
   i &&& 0xff]

/-! ## Text encoding codec -/

/-- Encoding constant `iso88591 = 0`. -/
def iso88591 : Nat := 0

/-- Encoding constant `utf16bom = 1`. -/
def utf16bom : Nat := 1

/-- Encoding constant `utf16be = 2`. -/
def utf16be : Nat := 2

/-- Encoding constant `utf8 = 3`. -/
def utf8 : Nat := 3

/-- Translation of `iso88591ToUTF8(input []byte) []byte`: the source emits a
byte unchanged when `b <= 128`, and a two-byte sequence otherwise. -/
def iso88591ToUTF8 : List Nat → List Nat
  | [] => []
  | b :: rest =>
    if b ≤ 128 then b :: iso88591ToUTF8 rest
    else if b ≥ 192 then 195 :: (b - 64) :: iso88591ToUTF8 rest
    else 194 :: b :: iso88591ToUTF8 rest

/-- Translation of `utf8ToISO88591(input []byte) []byte`.  On a singleton list
whose byte exceeds 128 the Go code indexes `input[j+1]` out of range and
panics; the model returns `[]` there (no theorem exercises that input). -/
def utf8ToISO88591 : List Nat → List Nat
  | [] => []
  | [b] => if b ≤ 128 then [b] else []
  | b :: c :: rest =>
    if b ≤ 128 then b :: utf8ToISO88591 (c :: rest)
    else if b = 195 then (c + 64) :: utf8ToISO88591 rest
    else c :: utf8ToISO88591 rest

/-! ## Terminator splitting -/

/-- Model of `bytes.SplitN(data, []byte{0}, n)` as used by `splitNullN`:
at most `n` parts, the separator byte removed, the last part carrying the
unsplit remainder.  Recursion is on the part budget. -/
def bytesSplitN : List Nat → Nat → List (List Nat)
  | _, 0 => []
  | data, 1 => [data]
  | data, n + 2 =>
    let pre := data.takeWhile (fun b => b ≠ 0)
    match data.dropWhile (fun b => b ≠ 0) with
    | [] => [data]
    | _ :: tail => pre :: bytesSplitN tail (n + 1)

/-- The UTF-16 scan loop of `splitNullN`, walking two bytes at a time.  The
Go variable `prev` is declared but never reassigned, so every appended match
is `data[0:i]`, i.e. `full.take i`.  `t` is the tail of `full` from index `i`.
On an odd-length input ending in a zero byte the Go code indexes `data[i+1]`
out of range and panics; the model stops the loop there (no theorem exercises
odd-length inputs). -/
def splitNullScan (full : List Nat) (n : Nat) :
    List Nat → Nat → List (List Nat) → List (List Nat)
  | [], _, parts => parts
  | [_], _, parts => parts
  | a :: b :: t, i, parts =>
    if a = 0 ∧ b = 0 then
      let parts := parts ++ [full.take i]
      if parts.length + 1 = n then parts
      else splitNullScan full n t (i + 2) parts
    else splitNullScan full n t (i + 2) parts

/-- Translation of `splitNullN(data []byte, encoding Encoding, n int)`.  The
final `if prev < len(data)-1` has `prev = 0`, and Go's `len(data)-1` on an
empty slice is `-1`, so the guard holds exactly when `data` has at least two
bytes — which `0 < data.length - 1` also expresses over `Nat`. -/
def splitNullN (data : List Nat) (encoding : Nat) (n : Nat) : List (List Nat) :=
  if encoding = utf8 ∨ encoding = iso88591 then bytesSplitN data n
  else
    let parts := splitNullScan data n data 0 []
    if 0 < data.length - 1 then parts ++ [data] else parts

/-! ## UTF-16 decoding (`utf16ToUTF8` and `reencode`) -/

/-- The pairing loop of `utf16ToUTF8`: combine bytes two at a time into
16-bit units.  On an odd-length input the Go code indexes `input[j+1]` out of
range and panics; the model drops the trailing byte. -/
def toUTF16Units (bigEndian : Bool) : List Nat → List Nat
  | a :: b :: rest =>
    (if bigEndian then a <<< 8 ||| b else a ||| b <<< 8) :: toUTF16Units bigEndian rest
  | _ => []

/-- Model of Go's `unicode/utf16.Decode`: surrogate pairs combine into one
code point, improper surrogates become U+FFFD. -/
def utf16DecodeUnits : List Nat → List Nat
  | [] => []
  | u :: rest =>
    if 0xD800 ≤ u ∧ u < 0xDC00 then
      match rest with
      | v :: rest2 =>
        if 0xDC00 ≤ v ∧ v < 0xE000 then
          (((u - 0xD800) <<< 10) + (v - 0xDC00) + 0x10000) :: utf16DecodeUnits rest2
        else 0xFFFD :: utf16DecodeUnits (v :: rest2)
      | [] => [0xFFFD]
    else if 0xDC00 ≤ u ∧ u < 0xE000 then 0xFFFD :: utf16DecodeUnits rest
    else u :: utf16DecodeUnits rest
termination_by l => l.length
decreasing_by all_goals simp [List.length_cons] <;> omega

/-- UTF-8 encoding of one Unicode scalar, modelling Go's `string(runes)`
conversion byte for byte. -/
def utf8EncodeChar (c : Nat) : List Nat :=
  if c < 0x80 then [c]
  else if c < 0x800 then [0xC0 ||| c >>> 6, 0x80 ||| (c &&& 0x3F)]
  else if c < 0x10000 then
    [0xE0 ||| c >>> 12, 0x80 ||| ((c >>> 6) &&& 0x3F), 0x80 ||| (c &&& 0x3F)]
  else
    [0xF0 ||| c >>> 18, 0x80 ||| ((c >>> 12) &&& 0x3F),
     0x80 ||| ((c >>> 6) &&& 0x3F), 0x80 ||| (c &&& 0x3F)]

/-- Translation of `utf16ToUTF8(input []byte) []byte`: strip a leading BOM
(UTF-16 is big-endian absent a little-endian mark), pair the bytes into
units, decode, re-encode as UTF-8.  The Go code indexes `input[0]`/`input[1]`
unconditionally and panics on inputs shorter than two bytes; the model treats
those as big-endian with nothing to strip. -/
def utf16ToUTF8 (input : List Nat) : List Nat :=
  let p : Bool × List Nat :=
    match input with
    | a :: b :: rest =>
      if a = 0xFF ∧ b = 0xFE then (false, rest)
      else if a = 0xFE ∧ b = 0xFF then (true, rest)
      else (true, a :: b :: rest)
    | l => (true, l)
  ((utf16DecodeUnits (toUTF16Units p.1 p.2)).map utf8EncodeChar).flatten

/-- Translation of `reencode(b []byte, encoding Encoding)`, the body behind
`Encoding.toUTF8`.  The final Go `panic("unsupported")` for an encoding byte
above 3 is modelled as `[]`; no theorem exercises such a byte. -/
def reencode (b : List Nat) (encoding : Nat) : List Nat :=
  if encoding = utf16bom ∨ encoding = utf16be then utf16ToUTF8 b
  else if encoding = utf8 then b
  else if encoding = iso88591 then iso88591ToUTF8 b
  else []

/-! ## Frame model  -/

/-- Constant `frameLength = 10`, the frame sub-header size. -/
def frameLength : Nat := 10

/-- Constant `tagHeaderSize = 10`. -/
def tagHeaderSize : Nat := 10

/-- Module variable `Padding = 1024`, the padding appended after the last
frame when a file is rebuilt. -/
def Padding : Nat := 1024

/-- Byte constant `id3byte = []byte("ID3")`. -/
def id3byte : List Nat := [73, 68, 51]

/-- Byte constant `versionByte = []byte{4, 0}`. -/
def versionByte : List Nat := [4, 0]

/-- Byte constant `nul = []byte{0}`. -/
def nul : List Nat := [0]

/-- Byte constant `utf8byte = []byte{utf8}`. -/
def utf8byte : List Nat := [3]

/-- The identifier bytes of `"TXXX"`. -/
def idTXXX : List Nat := [84, 88, 88, 88]

/-- The identifier bytes of `"WXXX"`. -/
def idWXXX : List Nat := [87, 88, 88, 88]

/-- The identifier bytes of `"UFID"`. -/
def idUFID : List Nat := [85, 70, 73, 68]

/-- The identifier bytes of `"COMM"`. -/
def idCOMM : List Nat := [67, 79, 77, 77]

/-- The identifier bytes of `"PRIV"`. -/
def idPRIV : List Nat := [80, 82, 73, 86]

/-- The identifier bytes of `"APIC"`. -/
def idAPIC : List Nat := [65, 80, 73, 67]

/-- The identifier bytes of `"MCDI"`. -/
def idMCDI : List Nat := [77, 67, 68, 73]

/-- The identifier bytes of `"USLT"`. -/
def idUSLT : List Nat := [85, 83, 76, 84]

/-- The identifier bytes of `"TRDA"`, the legacy frame dropped on encode. -/
def idTRDA : List Nat := [84, 82, 68, 65]

/-- The identifier bytes of `"TDTG"`, the tagging-time frame. -/
def idTDTG : List Nat := [84, 68, 84, 71]

/-- Translation of `FrameHeader {id FrameType; flags FrameFlags}`.  The
identifier string is kept as its bytes, the 16-bit flags as a `Nat`. -/
structure FrameHeader where
  id : List Nat
  flags : Nat
deriving DecidableEq, Repr

/-- The closed set of frame variants the codec models (`TextInformationFrame`,
`UserTextInformationFrame`, `URLLinkFrame`, `UserDefinedURLLinkFrame`,
`UniqueFileIdentifierFrame`, `CommentFrame`, `UnsupportedFrame`).  Text fields
hold UTF-8 bytes, as the Go `string` fields do. -/
inductive Frame where
  | text (h : FrameHeader) (txt : List Nat)
  | userText (h : FrameHeader) (description txt : List Nat)
  | url (h : FrameHeader) (link : List Nat)
  | userURL (h : FrameHeader) (description link : List Nat)
  | ufid (h : FrameHeader) (owner identifier : List Nat)
  | comment (h : FrameHeader) (language description txt : List Nat)
  | unsupported (h : FrameHeader) (data : List Nat)
deriving DecidableEq, Repr

/-- Translation of the `ID()` method: every variant exposes its header id. -/
def Frame.fid : Frame → List Nat
  | .text h _ => h.id
  | .userText h _ _ => h.id
  | .url h _ => h.id
  | .userURL h _ _ => h.id
  | .ufid h _ _ => h.id
  | .comment h _ _ _ => h.id
  | .unsupported h _ => h.id

/-- Go's `FramesMap` (`map[FrameType][]Frame`) as an association list in a
fixed order.  Go map iteration order is unspecified; the spec requires only a
stable order, which the list supplies. -/
abbrev FramesMap := List (List Nat × List Frame)

/-- Map indexing `fm[key]`, `none` when the key is absent. -/
def fmLookup : FramesMap → List Nat → Option (List Frame)
  | [], _ => none
  | (k, v) :: rest, key => if k = key then some v else fmLookup rest key

/-- Map assignment `fm[key] = v`: replace the bucket in place, or add it. -/
def fmSet : FramesMap → List Nat → List Frame → FramesMap
  | [], key, v => [(key, v)]
  | (k, w) :: rest, key, v =>
    if k = key then (key, v) :: rest else (k, w) :: fmSet rest key v

/-- `tag.Frames[frame.ID()] = append(tag.Frames[frame.ID()], frame)` as used
by the `Parse` loop; indexing a missing key yields the empty slice. -/
def fmAppendFrame (fm : FramesMap) (f : Frame) : FramesMap :=
  fmSet fm f.fid ((fmLookup fm f.fid).getD [] ++ [f])

/-- Translation of `FrameHeader.serialize(size int)`: the 4 identifier bytes,
the synchsafe-encoded size, the two flag bytes.  Go builds a 10-byte array
and copies the (always 4-byte) identifier into its front. -/
def serialize (h : FrameHeader) (size : Nat) : List Nat :=
  h.id ++ intToBytes (synchsafeInt size) ++ [(h.flags &&& 0xff00) >>> 8, h.flags &&& 0xff]

/-- Translation of the `size()` methods of the frame variants, case for
case.  A `TRDA` text frame has size 0; an `UnsupportedFrame` has size 0. -/
def frameSize : Frame → Nat
  | .text h txt => if h.id = idTRDA then 0 else frameLength + txt.length + 1
  | .userText _ d t => frameLength + d.length + t.length + 2
  | .url _ u => frameLength + (utf8ToISO88591 u).length
  | .userURL _ d u => frameLength + d.length + (utf8ToISO88591 u).length + 2
  | .ufid _ o i => frameLength + i.length + (utf8ToISO88591 o).length + 1
  | .comment _ _ d t => frameLength + d.length + t.length + 5
  | .unsupported _ _ => 0

/-- The slices each `WriteTo` method passes to `writeMany`, one list entry
per `w.Write` call.  A `TRDA` text frame and an `UnsupportedFrame` write
nothing. -/
def framePieces : Frame → List (List Nat)
  | .text h txt =>
    if h.id = idTRDA then []
    else [serialize h (frameSize (.text h txt) - frameLength), utf8byte, txt]
  | .userText h d t =>
    [serialize h (frameSize (.userText h d t) - frameLength), utf8byte, d, nul, t]
  | .url h u =>
    [serialize h (frameSize (.url h u) - frameLength), utf8ToISO88591 u]
  | .userURL h d u =>
    [serialize h (frameSize (.userURL h d u) - frameLength), utf8byte, d, nul,
     utf8ToISO88591 u]
  | .ufid h o i =>
    [serialize h (frameSize (.ufid h o i) - frameLength), utf8ToISO88591 o, nul, i]
  | .comment h lang d t =>
    [serialize h (frameSize (.comment h lang d t) - frameLength), utf8byte, lang, d,
     nul, t]
  | .unsupported _ _ => []

/-- The bytes a frame's `WriteTo` emits. -/
def frameEncode (f : Frame) : List Nat := (framePieces f).flatten

/-- Translation of `FramesMap.size()`: the sum of `size()` over every frame
in every bucket. -/
def fmSize (fm : FramesMap) : Nat :=
  (fm.map (fun b => (b.2.map frameSize).sum)).sum

/-- The bytes `FramesMap.Encode` emits when every write succeeds. -/
def fmEncode (fm : FramesMap) : List Nat :=
  (fm.map (fun b => (b.2.map frameEncode).flatten)).flatten

/-- Translation of `generateHeader(size int)`: magic, hardcoded version 4.0,
zero flags byte, synchsafe size. -/
def generateHeader (size : Nat) : List Nat :=
  id3byte ++ versionByte ++ nul ++ intToBytes (synchsafeInt size)

/-! ## Tag store mutation (`SetTextFrame`, `setUserTextFrame`) -/

/-- Translation of `frameNameToUserFrame`: a name of at least six bytes
starting with `"TXXX"` addresses the keyed `TXXX` sub-frame named by the
bytes after the separator. -/
def frameNameToUserFrame (name : List Nat) : Option (List Nat) :=
  if name.length < 6 then none
  else if name.take 4 ≠ idTXXX then none
  else some (name.drop 5)

/-- The description of a `UserTextInformationFrame`; Go's type assertion
`frame.(UserTextInformationFrame)` panics on any other variant, which the
`TXXX` bucket never holds, so the model returns `none` there (never a
match). -/
def userTextDescription : Frame → Option (List Nat)
  | .userText _ d _ => some d
  | _ => none

/-- The index at which the search loop of `setUserTextFrame` leaves `i`: the
first index whose description matches, otherwise the loop runs to completion
and `i` keeps the last index (`for i = range frames` leaves `i` at
`len(frames)-1`). -/
def userTextLoopIdx : List Frame → List Nat → Nat
  | [], _ => 0
  | [_], _ => 0
  | f :: rest, name =>
    if userTextDescription f = some name then 0 else 1 + userTextLoopIdx rest name

/-- Translation of `setUserTextFrame(name, value string)`.  The Go `ok` flag
holds the map-lookup result and is never reset before the search loop, so
whenever the `TXXX` bucket exists the `frames[i] = frame` branch is taken —
with `i` the first matching index, or the last index when nothing matches.
On an existing empty bucket Go panics (index 0 of an empty slice); the
package never stores one, and `List.set` leaves the bucket unchanged there. -/
def setUserTextFrame (fm : FramesMap) (name value : List Nat) : FramesMap :=
  let frame : Frame := .userText ⟨idTXXX, 0⟩ name value
  match fmLookup fm idTXXX with
  | none => fmSet fm idTXXX [frame]
  | some frames => fmSet fm idTXXX (frames.set (userTextLoopIdx frames name) frame)

/-- Translation of `SetTextFrame(name, value)`: dispatch `TXXX:description`
names to `setUserTextFrame`; otherwise overwrite slot 0 of the bucket,
creating a one-slot bucket when absent.  Go writes `frames[0]` through the
slice returned by the map lookup, which shares the bucket's backing array;
on an existing empty bucket Go panics, and `List.set` leaves it unchanged
(the package never stores one). -/
def setTextFrame (fm : FramesMap) (name value : List Nat) : FramesMap :=
  match frameNameToUserFrame name with
  | some userName => setUserTextFrame fm userName value
  | none =>
    let frame : Frame := .text ⟨name, 0⟩ value
    match fmLookup fm name with
    | none => fmSet fm name [frame]
    | some frames => fmSet fm name (frames.set 0 frame)

/-! ## Frame reading (`readFrame` and the per-identifier readers) -/

/-- The error values the parser returns (`NotAFrameHeader`, `notATagHeader`,
`UnsupportedVersion`, `ErrNoExtendedHeader`, `ErrNoUnsynchronizedTag`, plus
propagated I/O errors).  `panicked` records a Go panic unwinding through
`Parse`, kept distinct from every returned error. -/
inductive PErr where
  | notAFrameHeader (id size flags : List Nat)
  | ioError
  | notATagHeader (magic : List Nat)
  | unsupportedVersion (version : Nat)
  | noExtendedHeader
  | noUnsynchronizedTag
  | panicked (msg : String)
deriving DecidableEq, Repr

/-- The outcome of one `readFrame` call: a frame plus the unconsumed input,
`io.EOF` (padding or end of the tag), a returned error, or a Go panic. -/
inductive ReadRes where
  | ok (f : Frame) (rest : List Nat)
  | eof
  | err (e : PErr)
  | panicked (msg : String)
deriving DecidableEq, Repr

/-- The identifier-byte check of `readFrame`: ASCII `0`–`9` or `A`–`Z`. -/
def validFrameIdByte (b : Nat) : Bool :=
  decide ((48 ≤ b ∧ b ≤ 57) ∨ (65 ≤ b ∧ b ≤ 90))

/-- All four identifier bytes pass `validFrameIdByte` (the Go loop returns
`NotAFrameHeader` at the first byte that does not). -/
def validFrameId (id : List Nat) : Bool := id.all validFrameIdByte

/-- A `binary.Read` into an `n`-byte buffer with the error ignored, as the
per-identifier readers do: the buffer keeps the bytes read and stays zero
beyond them; the reader advances past what was consumed. -/
def readN (data : List Nat) (n : Nat) : List Nat × List Nat :=
  (data.take n ++ List.replicate (n - data.length) 0, data.drop n)

/-- Translation of `readTXXXFrame`: one encoding byte, then two
terminator-delimited fields.  Go's `make([]byte, headerSize-1)` panics when
`headerSize = 0` (the subtraction truncates to 0 here), and `parts[0]` /
`parts[1]` panic when `splitNullN` returns fewer segments (modelled by an
empty default); no theorem exercises those inputs. -/
def readTXXXFrame (data : List Nat) (header : FrameHeader) (headerSize : Nat) : ReadRes :=
  let encoding := data.getD 0 0
  let r := readN (data.drop 1) (headerSize - 1)
  let parts := splitNullN r.1 encoding 2
  .ok (.userText header (reencode (parts.getD 0 []) encoding)
    (reencode (parts.getD 1 []) encoding)) r.2

/-- Translation of `readWXXXFrame`: like `readTXXXFrame`, with the second
field decoded as ISO-8859-1. -/
def readWXXXFrame (data : List Nat) (header : FrameHeader) (headerSize : Nat) : ReadRes :=
  let encoding := data.getD 0 0
  let r := readN (data.drop 1) (headerSize - 1)
  let parts := splitNullN r.1 encoding 2
  .ok (.userURL header (reencode (parts.getD 0 []) encoding)
    (iso88591ToUTF8 (parts.getD 1 []))) r.2

/-- Translation of `readUFIDFrame`: a single-NUL split into the ISO-8859-1
owner and the raw identifier bytes. -/
def readUFIDFrame (data : List Nat) (header : FrameHeader) (headerSize : Nat) : ReadRes :=
  let r := readN data headerSize
  let parts := bytesSplitN r.1 2
  .ok (.ufid header (reencode (parts.getD 0 []) iso88591) (parts.getD 1 [])) r.2

/-- Translation of `readCOMMFrame`: encoding byte, 3-byte language code, then
two terminator-delimited fields. -/
def readCOMMFrame (data : List Nat) (header : FrameHeader) (headerSize : Nat) : ReadRes :=
  let encoding := data.getD 0 0
  let rl := readN (data.drop 1) 3
  let r := readN rl.2 (headerSize - 4)
  let parts := splitNullN r.1 encoding 2
  .ok (.comment header rl.1 (reencode (parts.getD 0 []) encoding)
    (reencode (parts.getD 1 []) encoding)) r.2

/-- Modelled from the spec: `readPRIVFrame`, `readAPICFrame` and
`readMCDIFrame` are called by `readFrame` but are not in the source file.
Spec §3 says picture/private/MCDI frames are parsed into typed variants but
re-emitted as Unsupported passthrough, so the model captures the raw payload
as an `UnsupportedFrame`.  No theorem exercises these identifiers. -/
def readRawFrame (data : List Nat) (header : FrameHeader) (headerSize : Nat) : ReadRes :=
  .ok (.unsupported header (data.take headerSize)) (data.drop headerSize)

/-- The identifier dispatch of `readFrame`, everything after the flag checks.
In the text branch a read that starts with no bytes left yields `io.EOF`
(which the caller treats as a clean stop) while a partial read yields a
returned error; a zero `frameSize` makes Go build a slice of length `-1`, a
runtime panic.  The URL branch issues one `r.Read` whose byte count is
discarded, so a short read leaves trailing zero bytes in the URL.  The
default branch captures the raw payload. -/
def readFrameDispatch (header : FrameHeader) (frameSz : Nat) (rest : List Nat) : ReadRes :=
  if header.id.getD 0 0 = 84 ∧ header.id ≠ idTXXX then
    if frameSz = 0 then .panicked "makeslice: len out of range"
    else if rest.length < frameSz then
      if rest.length ≤ 1 then .eof else .err .ioError
    else
      .ok (.text header (reencode ((rest.drop 1).take (frameSz - 1)) (rest.getD 0 0)))
        ((rest.drop 1).drop (frameSz - 1))
  else if header.id.getD 0 0 = 87 ∧ header.id ≠ idWXXX then
    if frameSz ≠ 0 ∧ rest.length = 0 then .eof
    else .ok (.url header (iso88591ToUTF8 (readN rest frameSz).1)) (rest.drop frameSz)
  else if header.id = idTXXX then readTXXXFrame rest header frameSz
  else if header.id = idWXXX then readWXXXFrame rest header frameSz
  else if header.id = idUFID then readUFIDFrame rest header frameSz
  else if header.id = idCOMM then readCOMMFrame rest header frameSz
  else if header.id = idPRIV then readRawFrame rest header frameSz
  else if header.id = idAPIC then readRawFrame rest header frameSz
  else if header.id = idMCDI then readRawFrame rest header frameSz
  else if header.id = idUSLT then readUFIDFrame rest header frameSz
  else
    if frameSz = 0 then .ok (.unsupported header []) rest
    else if rest.length = 0 then .eof
    else .ok (.unsupported header (rest.take frameSz)) (rest.drop frameSz)

/-- Translation of `readFrame(r io.Reader)`.  The reader is the unconsumed
byte list.  `binary.Read` failures on the 10-byte frame header are mapped to
`io.EOF` by the source; an all-zero identifier is the padding sentinel; an
identifier byte outside `0-9A-Z` is `NotAFrameHeader`; the compressed /
encrypted / grouped flag bits panic; then `readFrameDispatch` selects the
per-identifier reader. -/
def readFrame (input : List Nat) : ReadRes :=
  if input.length < 10 then .eof
  else
    let idB := input.take 4
    let sizeB := (input.drop 4).take 4
    let flagsB := (input.drop 8).take 2
    if idB = [0, 0, 0, 0] then .eof
    else if validFrameId idB = false then .err (.notAFrameHeader idB sizeB flagsB)
    else
      let flags := (flagsB.getD 0 0) <<< 8 ||| flagsB.getD 1 0
      if flags &&& 128 > 0 then .panicked "not implemented: cannot read compressed frame"
      else if flags &&& 64 > 0 then .panicked "not implemented: cannot read encrypted frame"
      else if flags &&& 32 > 0 then .panicked "not implemented: cannot read grouped frame"
      else readFrameDispatch ⟨idB, flags⟩ (desynchsafeInt sizeB) (input.drop 10)

/-! ## Termination facts for the frame loop

The `Parse` loop recurses on the reader; these proofs, needed by the
definition of `parseFrames` below, record that a successfully read frame
always consumes at least its 10-byte sub-header. -/

theorem readTXXXFrame_ok_length {data : List Nat} {hd : FrameHeader} {s : Nat}
    {f : Frame} {r : List Nat}
    (h : readTXXXFrame data hd s = .ok f r) : r.length ≤ data.length := by
  simp only [readTXXXFrame, readN] at h
  obtain ⟨-, h2⟩ := ReadRes.ok.inj h
  subst h2
  simp only [List.length_drop]
  omega

theorem readWXXXFrame_ok_length {data : List Nat} {hd : FrameHeader} {s : Nat}
    {f : Frame} {r : List Nat}
    (h : readWXXXFrame data hd s = .ok f r) : r.length ≤ data.length := by
  simp only [readWXXXFrame, readN] at h
  obtain ⟨-, h2⟩ := ReadRes.ok.inj h
  subst h2
  simp only [List.length_drop]
  omega

theorem readUFIDFrame_ok_length {data : List Nat} {hd : FrameHeader} {s : Nat}
    {f : Frame} {r : List Nat}
    (h : readUFIDFrame data hd s = .ok f r) : r.length ≤ data.length := by
  simp only [readUFIDFrame, readN] at h
  obtain ⟨-, h2⟩ := ReadRes.ok.inj h
  subst h2
  simp only [List.length_drop]
  omega

theorem readCOMMFrame_ok_length {data : List Nat} {hd : FrameHeader} {s : Nat}
    {f : Frame} {r : List Nat}
    (h : readCOMMFrame data hd s = .ok f r) : r.length ≤ data.length := by
  simp only [readCOMMFrame, readN] at h
  obtain ⟨-, h2⟩ := ReadRes.ok.inj h
  subst h2
  simp only [List.length_drop]
  omega

theorem readRawFrame_ok_length {data : List Nat} {hd : FrameHeader} {s : Nat}
    {f : Frame} {r : List Nat}
    (h : readRawFrame data hd s = .ok f r) : r.length ≤ data.length := by
  simp only [readRawFrame] at h
  obtain ⟨-, h2⟩ := ReadRes.ok.inj h
  subst h2
  simp only [List.length_drop]
  omega

theorem readFrameDispatch_ok_length {header : FrameHeader} {sz : Nat} {rest : List Nat}
    {f : Frame} {r : List Nat}
    (h : readFrameDispatch header sz rest = .ok f r) : r.length ≤ rest.length := by
  unfold readFrameDispatch at h
  by_cases c1 : header.id.getD 0 0 = 84 ∧ header.id ≠ idTXXX
  · rw [if_pos c1] at h
    by_cases c2 : sz = 0
    · rw [if_pos c2] at h; exact ReadRes.noConfusion h
    · rw [if_neg c2] at h
      by_cases c3 : rest.length < sz
      · rw [if_pos c3] at h
        by_cases c4 : rest.length ≤ 1
        · rw [if_pos c4] at h; exact ReadRes.noConfusion h
        · rw [if_neg c4] at h; exact ReadRes.noConfusion h
      · rw [if_neg c3] at h
        obtain ⟨-, h2⟩ := ReadRes.ok.inj h
        subst h2; simp only [List.length_drop]; omega
  · rw [if_neg c1] at h
    by_cases c5 : header.id.getD 0 0 = 87 ∧ header.id ≠ idWXXX
    · rw [if_pos c5] at h
      by_cases c6 : sz ≠ 0 ∧ rest.length = 0
      · rw [if_pos c6] at h; exact ReadRes.noConfusion h
      · rw [if_neg c6] at h
        obtain ⟨-, h2⟩ := ReadRes.ok.inj h
        subst h2; simp only [List.length_drop]; omega
    · rw [if_neg c5] at h
      by_cases c7 : header.id = idTXXX
      · rw [if_pos c7] at h; exact readTXXXFrame_ok_length h
      · rw [if_neg c7] at h
        by_cases c8 : header.id = idWXXX
        · rw [if_pos c8] at h; exact readWXXXFrame_ok_length h
        · rw [if_neg c8] at h
          by_cases c9 : header.id = idUFID
          · rw [if_pos c9] at h; exact readUFIDFrame_ok_length h
          · rw [if_neg c9] at h
            by_cases c10 : header.id = idCOMM
            · rw [if_pos c10] at h; exact readCOMMFrame_ok_length h
            · rw [if_neg c10] at h
              by_cases c11 : header.id = idPRIV
              · rw [if_pos c11] at h; exact readRawFrame_ok_length h
              · rw [if_neg c11] at h
                by_cases c12 : header.id = idAPIC
                · rw [if_pos c12] at h; exact readRawFrame_ok_length h
                · rw [if_neg c12] at h
                  by_cases c13 : header.id = idMCDI
                  · rw [if_pos c13] at h; exact readRawFrame_ok_length h
                  · rw [if_neg c13] at h
                    by_cases c14 : header.id = idUSLT
                    · rw [if_pos c14] at h; exact readUFIDFrame_ok_length h
                    · rw [if_neg c14] at h
                      by_cases c15 : sz = 0
                      · rw [if_pos c15] at h
                        obtain ⟨-, h2⟩ := ReadRes.ok.inj h
                        subst h2; omega
                      · rw [if_neg c15] at h
                        by_cases c16 : rest.length = 0
                        · rw [if_pos c16] at h; exact ReadRes.noConfusion h
                        · rw [if_neg c16] at h
                          obtain ⟨-, h2⟩ := ReadRes.ok.inj h
                          subst h2; simp only [List.length_drop]; omega

theorem readFrame_ok_length {input : List Nat} {f : Frame} {r : List Nat}
    (h : readFrame input = .ok f r) : r.length < input.length := by
  simp only [readFrame] at h
  by_cases c1 : input.length < 10
  · rw [if_pos c1] at h; exact ReadRes.noConfusion h
  · rw [if_neg c1] at h
    by_cases c2 : input.take 4 = [0, 0, 0, 0]
    · rw [if_pos c2] at h; exact ReadRes.noConfusion h
    · rw [if_neg c2] at h
      by_cases c3 : validFrameId (input.take 4) = false
      · rw [if_pos c3] at h; exact ReadRes.noConfusion h
      · rw [if_neg c3] at h
        set flags := (List.take 2 (List.drop 8 input)).getD 0 0 <<< 8 |||
          (List.take 2 (List.drop 8 input)).getD 1 0 with hflags
        by_cases c4 : flags &&& 128 > 0
        · rw [if_pos c4] at h; exact ReadRes.noConfusion h
        · rw [if_neg c4] at h
          by_cases c5 : flags &&& 64 > 0
          · rw [if_pos c5] at h; exact ReadRes.noConfusion h
          · rw [if_neg c5] at h
            by_cases c6 : flags &&& 32 > 0
            · rw [if_pos c6] at h; exact ReadRes.noConfusion h
            · rw [if_neg c6] at h
              have hl := readFrameDispatch_ok_length h
              simp only [List.length_drop] at hl
              omega

/-! ## The parse loop and `Parse` -/

/-- The frame loop of `Parse`: read frames, appending each to its bucket,
until `io.EOF` stops the loop cleanly or an error (or panic) ends it with the
frames collected so far. -/
def parseFrames (input : List Nat) (fm : FramesMap) : FramesMap × Option PErr :=
  match h : readFrame input with
  | .ok f rest => parseFrames rest (fmAppendFrame fm f)
  | .eof => (fm, none)
  | .err e => (fm, some e)
  | .panicked m => (fm, some (.panicked m))
termination_by input.length
decreasing_by exact readFrame_ok_length h

/-- Translation of `TagHeader`: version (the two version bytes as one 16-bit
value), flags byte, declared tag size. -/
structure TagHeader where
  version : Nat
  flags : Nat
  size : Nat
deriving DecidableEq, Repr

/-- Translation of `Tag`: header plus frame store. -/
structure Tag where
  header : TagHeader
  frames : FramesMap
deriving DecidableEq, Repr

/-- Translation of `NewTag()`: zero header, empty frame store. -/
def NewTag : Tag := ⟨⟨0, 0, 0⟩, []⟩

/-- Translation of `readHeader(r io.Reader)` (also `ParseHeader`): validate
the magic and the major version (3 or 4), decode flags and the synchsafe
size.  A short read propagates the `binary.Read` error. -/
def readHeader (input : List Nat) : Except PErr (TagHeader × List Nat) :=
  if input.length < 10 then .error .ioError
  else if input.take 3 ≠ id3byte then .error (.notATagHeader (input.take 3))
  else
    let version := (input.getD 3 0) <<< 8 ||| input.getD 4 0
    if input.getD 3 0 > 4 ∨ input.getD 3 0 < 3 then .error (.unsupportedVersion version)
    else .ok (⟨version, input.getD 5 0, desynchsafeInt ((input.drop 6).take 4)⟩,
      input.drop 10)

/-- The legacy-version upgrade pass (`Tag.upgrade`).  Spec §1 places the
version-upgrade heuristics outside the core under specification (an external
collaborator specified only at its interface) and §9 records its date
arithmetic as a known open question; it runs only after a fully successful
parse of a pre-2.4 tag, a path no theorem below takes (error paths return
before it and every witness parses a version-4 tag).  It is modelled as the
identity on the tag. -/
def upgrade (t : Tag) : Tag := t

/-- Translation of `Parse(r io.Reader)`: returns the tag (or Go's `nil` for
the extended-header and unsynchronisation rejections) together with the
error, which is `none` on success.  The frames region is the limited reader
`io.LimitReader(r, Size+tagHeaderSize)` applied after the header was
consumed. -/
def goParse (input : List Nat) : Option Tag × Option PErr :=
  match readHeader input with
  | .error e => (some NewTag, some e)
  | .ok (header, rest) =>
    if header.flags &&& 64 > 0 then (none, some .noExtendedHeader)
    else if header.flags &&& 128 > 0 then (none, some .noUnsynchronizedTag)
    else
      let p := parseFrames (rest.take (header.size + tagHeaderSize)) []
      match p.2 with
      | some e => (some ⟨header, p.1⟩, some e)
      | none =>
        let t : Tag := ⟨header, p.1⟩
        (some (if header.version < 0x0400 then upgrade t else t), none)

/-! ## The save engine -/

/-- A Boolean rendering of the invariants the package maintains on stored
frames: identifiers are 4 bytes and comment language codes 3 bytes (both
fixed-width on the wire).  It is what makes `size()` agree with the bytes
`WriteTo` emits. -/
def frameWF : Frame → Bool
  | .text h _ => h.id.length == 4
  | .userText h _ _ => h.id.length == 4
  | .url h _ => h.id.length == 4
  | .userURL h _ _ => h.id.length == 4
  | .ufid h _ _ => h.id.length == 4
  | .comment h lang _ _ => h.id.length == 4 && lang.length == 3
  | .unsupported _ _ => true

/-- Every frame of every bucket satisfies `frameWF`. -/
def fmWF (fm : FramesMap) : Bool := fm.all (fun b => b.2.all frameWF)

/-- The open file behind a `File`: the bytes on disk, the seek position, the
cached size, the fixed start of the audio region (`tagHeaderSize +
tag.Header.Size` at open time), and the tag (header and frame store). -/
structure GoFile where
  content : List Nat
  pos : Nat
  fileSize : Nat
  audioStart : Nat
  header : TagHeader
  frames : FramesMap
deriving Repr

/-- One `f.f.Write(bs)`: overwrite `bs.length` bytes at the seek position
(extending the file when writing past its end) and advance the position. -/
def fileWrite (f : GoFile) (bs : List Nat) : GoFile :=
  { f with
    content := f.content.take f.pos ++ bs ++ f.content.drop (f.pos + bs.length),
    pos := f.pos + bs.length }

/-- Translation of `(*File).saveInplace`: seek to the start, write a header
still sized to the existing reserved capacity, write all frames, record
version 2.4, blank the remainder of the previous tag. -/
def saveInplace (f : GoFile) (framesSize : Nat) : GoFile :=
  let f1 := { f with pos := 0 }
  let f2 := fileWrite f1 (generateHeader f.header.size)
  let f3 := fileWrite f2 (fmEncode f2.frames)
  let f4 := { f3 with header := { f3.header with version := 0x0400 } }
  fileWrite f4 (List.replicate (f4.header.size - framesSize) 0)

/-- Translation of `Tag.Encode(w)` with every write succeeding: set the
`TDTG` frame to the formatted current UTC time (`now` is the 19-byte
`time.Format(TimeFormat)` result, passed explicitly since the model has no
clock), then emit header, frames and padding.  Returns the mutated tag
together with the bytes. -/
def tagEncode (t : Tag) (now : List Nat) : Tag × List Nat :=
  let t1 : Tag := ⟨t.header, setTextFrame t.frames idTDTG now⟩
  (t1, generateHeader (fmSize t1.frames + Padding) ++ fmEncode t1.frames ++
    List.replicate Padding 0)

/-- The Rebuild path (`saveNew` + `SaveTo`) with every write succeeding:
build header, frames, padding and the audio region into the scratch sink,
then replace the file content; record the new reserved size and version.
The write-failure behaviour of this path is modelled by `saveNewRun`. -/
def saveNewPure (f : GoFile) (framesSize : Nat) (now : List Nat) : GoFile :=
  let audio := f.content.drop f.audioStart
  let e := tagEncode ⟨f.header, f.frames⟩ now
  { f with
    content := e.2 ++ audio,
    pos := (e.2 ++ audio).length,
    frames := e.1.frames,
    header := { f.header with size := framesSize + Padding, version := 0x0400 } }

/-- Translation of `(*File).Save()`: set the `TDTG` frame to the current
time, then overwrite in place when the file has a tag, the reserved size
holds the new frames, and the store is non-empty; rebuild otherwise.
`HasTag()` is `Header.Version > 0`. -/
def goSave (f : GoFile) (now : List Nat) : GoFile :=
  let f1 := { f with frames := setTextFrame f.frames idTDTG now }
  let framesSize := fmSize f1.frames
  if 0 < f1.header.version ∧ framesSize ≤ f1.header.size ∧ f1.frames ≠ [] then
    saveInplace f1 framesSize
  else
    saveNewPure f1 framesSize now

/-! ## The fallible scratch writer for the Rebuild path -/

/-- The scratch sink `saveNew` builds the new image in (a `bytes.Buffer`
below the 10 MiB threshold, a temporary file above it — identical as byte
sinks).  `budget` is the number of `Write` calls that will still succeed; a
write with no budget left returns the error a Go `io.Writer` would. -/
structure BufWriter where
  data : List Nat
  budget : Nat
deriving Repr, DecidableEq

/-- One `w.Write(bs)` against the scratch sink. -/
def bwrite (bs : List Nat) (w : BufWriter) : Option BufWriter :=
  match w.budget with
  | 0 => none
  | b + 1 => some ⟨w.data ++ bs, b⟩

/-- Translation of `writeMany`: issue one `Write` per slice, stopping at the
first error. -/
def writeManyW : List (List Nat) → BufWriter → Option BufWriter
  | [], w => some w
  | bs :: rest, w =>
    match bwrite bs w with
    | none => none
    | some w2 => writeManyW rest w2

/-- One bucket of `FramesMap.Encode`: each frame's `WriteTo` is a
`writeMany` of its pieces. -/
def framesWrite : List Frame → BufWriter → Option BufWriter
  | [], w => some w
  | f :: rest, w =>
    match writeManyW (framePieces f) w with
    | none => none
    | some w2 => framesWrite rest w2

/-- Translation of `FramesMap.Encode(w)`: every frame of every bucket,
stopping at the first error. -/
def fmWrite : FramesMap → BufWriter → Option BufWriter
  | [], w => some w
  | b :: rest, w =>
    match framesWrite b.2 w with
    | none => none
    | some w2 => fmWrite rest w2

/-- Translation of `Tag.Encode(w)` against the fallible writer: set `TDTG`,
then write header, frames, padding, propagating the first error. -/
def tagEncodeW (fm : FramesMap) (now : List Nat) (w : BufWriter) : Option BufWriter :=
  let fm1 := setTextFrame fm idTDTG now
  match bwrite (generateHeader (fmSize fm1 + Padding)) w with
  | none => none
  | some w1 =>
    match fmWrite fm1 w1 with
    | none => none
    | some w2 => bwrite (List.replicate Padding 0) w2

/-- Translation of `(*File).SaveTo(w)`: encode the tag, then copy the audio
region (`io.Copy` from the audio reader, modelled as one write). -/
def saveToW (fm : FramesMap) (now audio : List Nat) (w : BufWriter) : Option BufWriter :=
  match tagEncodeW fm now w with
  | none => none
  | some w1 => bwrite audio w1

/-- Translation of `(*File).saveNew`: build the complete new image in the
scratch sink; only when that succeeded, truncate the original file and copy
the scratch content back.  Returns the outcome together with the resulting
disk content; on a build failure the error is returned with the disk bytes
untouched.  (A failure to create the temporary file likewise returns before
the disk is touched.) -/
def saveNewRun (disk : List Nat) (fm : FramesMap) (now audio : List Nat)
    (budget : Nat) : Option Unit × List Nat :=
  match saveToW fm now audio ⟨[], budget⟩ with
  | none => (none, disk)
  | some w =>
    let disk1 : List Nat := []
    let disk2 := disk1 ++ w.data
    (some (), disk2)

/-! ## Claims C1, C2, C9 -/

/-- C1: the synchsafe round trip `desynchsafeInt (intToBytes (synchsafeInt x)) = x`
is claimed for all `0 ≤ x < 2^28`, but the fourth mask of `synchsafeInt`
(`0xfe0000` where the 7-bit grouping requires `0xfe00000`) overlaps the third
mask on bits 17–20 and drops bits 24–27 entirely.  At `x = 131072 = 2^17` the
encoded bytes decode to `393216`, not `131072`. -/
theorem synchsafeInt_roundtrip_fails_at_131072 :
    131072 < 2 ^ 28 ∧
    desynchsafeInt (intToBytes (synchsafeInt 131072)) = 393216 ∧
    desynchsafeInt (intToBytes (synchsafeInt 131072)) ≠ 131072 := by
  refine ⟨by norm_num, by decide, by decide⟩

/-- C2: the ISO-8859-1 round trip is claimed for every Latin-1-representable
string, with bytes `≥ 0x80` decoding to their two-byte UTF-8 encoding.  The
source tests `b <= 128` where the ASCII range is `b <= 127`, so the boundary
byte `0x80` (code point U+0080, UTF-8 bytes `[194, 128]`) is passed through
as a single byte in both directions and the round trip loses it:
`utf8ToISO88591 [194, 128] = [128]` and `iso88591ToUTF8 [128] = [128]`. -/
theorem iso88591_roundtrip_fails_at_u0080 :
    utf8ToISO88591 [194, 128] = [128] ∧
    iso88591ToUTF8 (utf8ToISO88591 [194, 128]) = [128] ∧
    iso88591ToUTF8 (utf8ToISO88591 [194, 128]) ≠ [194, 128] ∧
    iso88591ToUTF8 [128] = [128] := by
  refine ⟨by decide, by decide, by decide, by decide⟩

/-- C9: `splitNullN` with a UTF-16 encoding is claimed to return the bytes
strictly before the aligned double-NUL terminator and the bytes strictly
after it.  The loop never advances `prev`, so the second segment is the whole
input (`data[0:]`), terminator and prefix included: on UTF-16BE `"A" 00 00 "B"`
the result is `[[0,65], [0,65,0,0,0,66]]`, not `[[0,65], [0,66]]`.  (The
two-byte stride itself is correct: the `0x00` inside the code unit `[0,65]`
is not treated as a terminator.) -/
theorem splitNullN_utf16_keeps_whole_input_as_second_part :
    splitNullN [0, 65, 0, 0, 0, 66] utf16be 2 = [[0, 65], [0, 65, 0, 0, 0, 66]] ∧
    ([0, 65, 0, 0, 0, 66] : List Nat) ≠ [0, 66] := by
  refine ⟨by decide, by decide⟩

/-! ## Support lemmas: decomposing a frame header on the wire -/

theorem hdrBytes_take4 {idB sizeB flagsB rest : List Nat} (h4 : idB.length = 4) :
    (idB ++ sizeB ++ flagsB ++ rest).take 4 = idB := by
  simp [List.take_append_eq_append_take, h4, List.take_of_length_le, h4.le]

theorem hdrBytes_size {idB sizeB flagsB rest : List Nat} (h4 : idB.length = 4)
    (hs : sizeB.length = 4) :
    ((idB ++ sizeB ++ flagsB ++ rest).drop 4).take 4 = sizeB := by
  simp [List.drop_append_eq_append_drop, List.take_append_eq_append_take,
    List.length_append, h4, hs, List.take_of_length_le, List.drop_of_length_le]

theorem hdrBytes_flags {idB sizeB flagsB rest : List Nat} (h4 : idB.length = 4)
    (hs : sizeB.length = 4) (hf : flagsB.length = 2) :
    ((idB ++ sizeB ++ flagsB ++ rest).drop 8).take 2 = flagsB := by
  simp [List.drop_append_eq_append_drop, List.take_append_eq_append_take,
    List.length_append, h4, hs, hf, List.take_of_length_le, List.drop_of_length_le]

theorem hdrBytes_drop10 {idB sizeB flagsB rest : List Nat} (h4 : idB.length = 4)
    (hs : sizeB.length = 4) (hf : flagsB.length = 2) :
    (idB ++ sizeB ++ flagsB ++ rest).drop 10 = rest := by
  simp [List.drop_append_eq_append_drop, List.length_append, h4, hs, hf,
    List.drop_of_length_le]

theorem hdrBytes_length {idB sizeB flagsB rest : List Nat} (h4 : idB.length = 4)
    (hs : sizeB.length = 4) (hf : flagsB.length = 2) :
    (idB ++ sizeB ++ flagsB ++ rest).length = 10 + rest.length := by
  simp [List.length_append, h4, hs, hf]; omega

/-! ## Support lemmas: one-step unfoldings of the parse loop -/

theorem parseFrames_err {input : List Nat} {fm : FramesMap} {e : PErr}
    (h : readFrame input = .err e) : parseFrames input fm = (fm, some e) := by
  rw [parseFrames]
  split
  · rename_i f rest heq; rw [h] at heq; exact ReadRes.noConfusion heq
  · rename_i heq; rw [h] at heq; exact ReadRes.noConfusion heq
  · rename_i e2 heq; rw [h] at heq; cases ReadRes.err.inj heq; rfl
  · rename_i m heq; rw [h] at heq; exact ReadRes.noConfusion heq

theorem parseFrames_ok {input : List Nat} {f : Frame} {rest : List Nat} {fm : FramesMap}
    (h : readFrame input = .ok f rest) :
    parseFrames input fm = parseFrames rest (fmAppendFrame fm f) := by
  conv_lhs => rw [parseFrames]
  split
  · rename_i f2 rest2 heq; rw [h] at heq
    obtain ⟨h1, h2⟩ := ReadRes.ok.inj heq
    rw [h1, h2]
  · rename_i heq; rw [h] at heq; exact ReadRes.noConfusion heq
  · rename_i e2 heq; rw [h] at heq; exact ReadRes.noConfusion heq
  · rename_i m heq; rw [h] at heq; exact ReadRes.noConfusion heq

theorem parseFrames_eof {input : List Nat} {fm : FramesMap}
    (h : readFrame input = .eof) : parseFrames input fm = (fm, none) := by
  rw [parseFrames]
  split
  · rename_i f rest heq; rw [h] at heq; exact ReadRes.noConfusion heq
  · rfl
  · rename_i e2 heq; rw [h] at heq; exact ReadRes.noConfusion heq
  · rename_i m heq; rw [h] at heq; exact ReadRes.noConfusion heq

theorem goParse_v4_decomp (sizeB rest : List Nat) (hs : sizeB.length = 4) :
    goParse ([73, 68, 51, 4, 0, 0] ++ sizeB ++ rest) =
      (some ⟨⟨1024, 0, desynchsafeInt sizeB⟩,
          (parseFrames (rest.take (desynchsafeInt sizeB + tagHeaderSize)) []).1⟩,
        (parseFrames (rest.take (desynchsafeInt sizeB + tagHeaderSize)) []).2) := by
  have e1 : (sizeB ++ rest).take 4 = sizeB := by rw [← hs, List.take_left]
  have e2 : (sizeB ++ rest).drop 4 = rest := by rw [← hs, List.drop_left]
  simp only [goParse, readHeader, List.cons_append, List.nil_append, List.length_cons,
    List.length_append, List.take_succ_cons, List.take_zero, List.drop_succ_cons,
    List.drop_zero, List.getD_cons_succ, List.getD_cons_zero, e1, e2]
  rw [if_neg (by omega : ¬ (sizeB.length + rest.length + 1 + 1 + 1 + 1 + 1 + 1 < 10))]
  rw [if_neg (by simp [id3byte] : ¬ (([73, 68, 51] : List Nat) ≠ id3byte))]
  rw [if_neg (by decide : ¬ ((4 : Nat) > 4 ∨ (4 : Nat) < 3))]
  have h1024 : (4 : Nat) <<< 8 ||| 0 = 1024 := by decide
  simp only [h1024, Nat.zero_and, Nat.lt_irrefl, if_false]
  cases hp : (parseFrames (rest.take (desynchsafeInt sizeB + tagHeaderSize)) []).2 with
  | none => simp [hp]
  | some e => simp [hp]

/-! ## Claim C5 -/

/-- C5 counterexample: a well-formed `TIT2` frame header whose flags mark the
frame compressed makes `readFrame` panic ("not implemented") instead of
returning an error result, so parsing does abort the process there. -/
theorem readFrame_compressed_flag_panics :
    readFrame [84, 73, 84, 50, 0, 0, 0, 1, 0, 128]
      = .panicked "not implemented: cannot read compressed frame" := by rfl

/-- C5 (amended): for every frame whose well-formed, non-padding, valid
identifier header carries the compressed, encrypted or grouped flag bit,
`readFrame` panics with the matching "not implemented" message — the
condition is detected and surfaced, but as a process abort, not as an error
result the caller could catch. -/
theorem readFrame_marked_flags_panic (idB sizeB flagsB rest : List Nat)
    (h4 : idB.length = 4) (hs : sizeB.length = 4) (hf : flagsB.length = 2)
    (hz : idB ≠ [0, 0, 0, 0]) (hv : validFrameId idB = true)
    (hmark : ((flagsB.getD 0 0) <<< 8 ||| flagsB.getD 1 0) &&& 128 > 0 ∨
      ((flagsB.getD 0 0) <<< 8 ||| flagsB.getD 1 0) &&& 64 > 0 ∨
      ((flagsB.getD 0 0) <<< 8 ||| flagsB.getD 1 0) &&& 32 > 0) :
    readFrame (idB ++ sizeB ++ flagsB ++ rest) =
      .panicked
        (if ((flagsB.getD 0 0) <<< 8 ||| flagsB.getD 1 0) &&& 128 > 0 then
          "not implemented: cannot read compressed frame"
        else if ((flagsB.getD 0 0) <<< 8 ||| flagsB.getD 1 0) &&& 64 > 0 then
          "not implemented: cannot read encrypted frame"
        else "not implemented: cannot read grouped frame") := by
  have e1 : (idB ++ sizeB ++ flagsB ++ rest).take 4 = idB := hdrBytes_take4 h4
  have e2 : ((idB ++ sizeB ++ flagsB ++ rest).drop 4).take 4 = sizeB := hdrBytes_size h4 hs
  have e3 : ((idB ++ sizeB ++ flagsB ++ rest).drop 8).take 2 = flagsB := hdrBytes_flags h4 hs hf
  have elen : (idB ++ sizeB ++ flagsB ++ rest).length = 10 + rest.length :=
    hdrBytes_length h4 hs hf
  simp only [readFrame, e1, e2, e3, elen]
  rw [if_neg (by omega : ¬ (10 + rest.length < 10))]
  rw [if_neg hz]
  rw [if_neg (by simp [hv] : ¬ (validFrameId idB = false))]
  by_cases b7 : ((flagsB.getD 0 0) <<< 8 ||| flagsB.getD 1 0) &&& 128 > 0
  · rw [if_pos b7, if_pos b7]
  · rw [if_neg b7, if_neg b7]
    by_cases b6 : ((flagsB.getD 0 0) <<< 8 ||| flagsB.getD 1 0) &&& 64 > 0
    · rw [if_pos b6, if_pos b6]
    · rw [if_neg b6, if_neg b6]
      have b5 : ((flagsB.getD 0 0) <<< 8 ||| flagsB.getD 1 0) &&& 32 > 0 := by
        rcases hmark with h | h | h
        · exact absurd h b7
        · exact absurd h b6
        · exact h
      rw [if_pos b5]

/-- C5 witness: the amended theorem applied to a concrete `TIT2` frame whose
flags mark it encrypted. -/
theorem readFrame_marked_flags_panic_witness :
    readFrame ([84, 73, 84, 50] ++ [0, 0, 0, 1] ++ [0, 64] ++ [])
      = .panicked "not implemented: cannot read encrypted frame" := by
  have h := readFrame_marked_flags_panic [84, 73, 84, 50] [0, 0, 0, 1] [0, 64] []
    (by decide) (by decide) (by decide) (by decide) (by decide)
    (Or.inr (Or.inl (by decide)))
  simpa using h

/-! ## Claim C6 -/

/-- C6: `setUserTextFrame` is claimed to replace only the `TXXX` entry whose
description matches and to append when no description matches, never touching
entries with other descriptions.  The Go `ok` flag keeps its map-lookup value
through the search loop, so on a bucket holding one entry with description
`"a"` ([97]), setting description `"b"` ([98]) overwrites the `"a"` entry
instead of appending: the result holds only the `"b"` entry, and the claimed
two-entry bucket is not produced. -/
theorem setUserTextFrame_overwrites_unrelated_entry :
    setUserTextFrame [(idTXXX, [Frame.userText ⟨idTXXX, 0⟩ [97] [118]])] [98] [119]
      = [(idTXXX, [Frame.userText ⟨idTXXX, 0⟩ [98] [119]])] ∧
    setUserTextFrame [(idTXXX, [Frame.userText ⟨idTXXX, 0⟩ [97] [118]])] [98] [119]
      ≠ [(idTXXX, [Frame.userText ⟨idTXXX, 0⟩ [97] [118],
          Frame.userText ⟨idTXXX, 0⟩ [98] [119]])] := by
  refine ⟨by decide, by decide⟩

/-! ## Claim C7 -/

/-- C7: (1) a non-padding frame header whose four identifier bytes are not
all ASCII digits or uppercase letters makes `readFrame` return a
`NotAFrameHeader` error; (2) whenever `readFrame` returns an error, the parse
loop stops at once and returns the frames collected so far together with that
error; (3) `Parse` on a version-4 tag returns the tag holding exactly the
loop's frame store alongside the loop's error, so the frames parsed before
the malformed one are retained and handed to the caller with the error. -/
theorem malformed_frame_id_aborts :
    (∀ idB sizeB flagsB rest : List Nat, idB.length = 4 → sizeB.length = 4 →
      flagsB.length = 2 → idB ≠ [0, 0, 0, 0] → validFrameId idB = false →
      readFrame (idB ++ sizeB ++ flagsB ++ rest)
        = .err (.notAFrameHeader idB sizeB flagsB)) ∧
    (∀ (input : List Nat) (fm : FramesMap) (e : PErr), readFrame input = .err e →
      parseFrames input fm = (fm, some e)) ∧
    (∀ sizeB rest : List Nat, sizeB.length = 4 →
      goParse ([73, 68, 51, 4, 0, 0] ++ sizeB ++ rest) =
        (some ⟨⟨1024, 0, desynchsafeInt sizeB⟩,
            (parseFrames (rest.take (desynchsafeInt sizeB + tagHeaderSize)) []).1⟩,
          (parseFrames (rest.take (desynchsafeInt sizeB + tagHeaderSize)) []).2)) := by
  refine ⟨?_, ?_, ?_⟩
  · intro idB sizeB flagsB rest h4 hs hf hz hv
    have e1 : (idB ++ sizeB ++ flagsB ++ rest).take 4 = idB := hdrBytes_take4 h4
    have e2 : ((idB ++ sizeB ++ flagsB ++ rest).drop 4).take 4 = sizeB := hdrBytes_size h4 hs
    have e3 : ((idB ++ sizeB ++ flagsB ++ rest).drop 8).take 2 = flagsB :=
      hdrBytes_flags h4 hs hf
    have elen : (idB ++ sizeB ++ flagsB ++ rest).length = 10 + rest.length :=
      hdrBytes_length h4 hs hf
    simp only [readFrame, e1, e2, e3, elen]
    rw [if_neg (by omega : ¬ (10 + rest.length < 10))]
    rw [if_neg hz, if_pos hv]
  · intro input fm e h
    exact parseFrames_err h
  · intro sizeB rest hs
    exact goParse_v4_decomp sizeB rest hs

/-- C7 witness: a version-4 tag holding one unsupported `ZZZZ` frame followed
by a frame header with lowercase identifier bytes parses to a tag retaining
the `ZZZZ` frame, returned together with the `NotAFrameHeader` error. -/
theorem malformed_frame_id_aborts_witness :
    goParse ([73, 68, 51, 4, 0, 0] ++ [0, 0, 0, 12] ++
        ([90, 90, 90, 90, 0, 0, 0, 2, 0, 0, 7, 8] ++
          [97, 98, 99, 100, 0, 0, 0, 0, 0, 0])) =
      (some ⟨⟨1024, 0, 12⟩,
          [([90, 90, 90, 90], [Frame.unsupported ⟨[90, 90, 90, 90], 0⟩ [7, 8]])]⟩,
        some (.notAFrameHeader [97, 98, 99, 100] [0, 0, 0, 0] [0, 0])) := by
  rw [malformed_frame_id_aborts.2.2 [0, 0, 0, 12]
    ([90, 90, 90, 90, 0, 0, 0, 2, 0, 0, 7, 8] ++ [97, 98, 99, 100, 0, 0, 0, 0, 0, 0])
    (by decide)]
  have ht : (([90, 90, 90, 90, 0, 0, 0, 2, 0, 0, 7, 8] ++
      [97, 98, 99, 100, 0, 0, 0, 0, 0, 0]).take
        (desynchsafeInt [0, 0, 0, 12] + tagHeaderSize)) =
      [90, 90, 90, 90, 0, 0, 0, 2, 0, 0, 7, 8, 97, 98, 99, 100, 0, 0, 0, 0, 0, 0] := by
    decide
  rw [ht]
  have hok : readFrame
      [90, 90, 90, 90, 0, 0, 0, 2, 0, 0, 7, 8, 97, 98, 99, 100, 0, 0, 0, 0, 0, 0] =
      .ok (Frame.unsupported ⟨[90, 90, 90, 90], 0⟩ [7, 8])
        [97, 98, 99, 100, 0, 0, 0, 0, 0, 0] := by decide
  rw [parseFrames_ok hok]
  rw [malformed_frame_id_aborts.2.1 [97, 98, 99, 100, 0, 0, 0, 0, 0, 0] _
    (.notAFrameHeader [97, 98, 99, 100] [0, 0, 0, 0] [0, 0]) (by decide)]
  rfl

/-! ## Claim C8 -/

/-- C8 counterexample: an `UnsupportedFrame` carrying three captured payload
bytes reports `size()` 0 — not the captured byte count plus the 10-byte
sub-header — and its `WriteTo` emits no bytes at all, so the frame is dropped
on save rather than re-emitted byte-for-byte. -/
theorem unsupportedFrame_dropped_on_save :
    frameSize (.unsupported ⟨[90, 90, 90, 90], 0⟩ [1, 2, 3]) = 0 ∧
    frameEncode (.unsupported ⟨[90, 90, 90, 90], 0⟩ [1, 2, 3]) = [] ∧
    ([1, 2, 3] : List Nat).length + frameLength ≠ 0 := by
  refine ⟨by decide, by decide, by decide⟩

/-- C8 (amended): for every frame with a valid identifier that no reader
recognises (not a `T`- or `W`-type frame and none of the switch cases) and
no compressed/encrypted/grouped flag, `readFrame` captures the declared
payload bytes verbatim into an `UnsupportedFrame` — but on save that frame
is dropped: its `size()` is 0 and its `WriteTo` emits nothing. -/
theorem unsupported_captured_verbatim_but_dropped
    (idB sizeB flagsB payload extra : List Nat)
    (h4 : idB.length = 4) (hs : sizeB.length = 4) (hf : flagsB.length = 2)
    (hz : idB ≠ [0, 0, 0, 0]) (hv : validFrameId idB = true)
    (hnc : ((flagsB.getD 0 0) <<< 8 ||| flagsB.getD 1 0) &&& 128 = 0)
    (hne : ((flagsB.getD 0 0) <<< 8 ||| flagsB.getD 1 0) &&& 64 = 0)
    (hng : ((flagsB.getD 0 0) <<< 8 ||| flagsB.getD 1 0) &&& 32 = 0)
    (hT : idB.getD 0 0 ≠ 84) (hW : idB.getD 0 0 ≠ 87)
    (hsw : idB ≠ idUFID ∧ idB ≠ idCOMM ∧ idB ≠ idPRIV ∧ idB ≠ idAPIC ∧
      idB ≠ idMCDI ∧ idB ≠ idUSLT)
    (hsz : desynchsafeInt sizeB = payload.length) :
    readFrame (idB ++ sizeB ++ flagsB ++ (payload ++ extra)) =
      .ok (.unsupported ⟨idB, (flagsB.getD 0 0) <<< 8 ||| flagsB.getD 1 0⟩ payload)
        extra ∧
    frameSize (.unsupported ⟨idB, (flagsB.getD 0 0) <<< 8 ||| flagsB.getD 1 0⟩ payload)
      = 0 ∧
    frameEncode (.unsupported ⟨idB, (flagsB.getD 0 0) <<< 8 ||| flagsB.getD 1 0⟩ payload)
      = [] := by
  refine ⟨?_, rfl, rfl⟩
  have e1 : (idB ++ sizeB ++ flagsB ++ (payload ++ extra)).take 4 = idB :=
    hdrBytes_take4 h4
  have e2 : ((idB ++ sizeB ++ flagsB ++ (payload ++ extra)).drop 4).take 4 = sizeB :=
    hdrBytes_size h4 hs
  have e3 : ((idB ++ sizeB ++ flagsB ++ (payload ++ extra)).drop 8).take 2 = flagsB :=
    hdrBytes_flags h4 hs hf
  have e4 : (idB ++ sizeB ++ flagsB ++ (payload ++ extra)).drop 10 = payload ++ extra :=
    hdrBytes_drop10 h4 hs hf
  have elen : (idB ++ sizeB ++ flagsB ++ (payload ++ extra)).length
      = 10 + (payload ++ extra).length := hdrBytes_length h4 hs hf
  simp only [readFrame, e1, e2, e3, e4, elen]
  rw [if_neg (by omega : ¬ (10 + (payload ++ extra).length < 10))]
  rw [if_neg hz]
  rw [if_neg (by simp [hv] : ¬ (validFrameId idB = false))]
  rw [if_neg (by omega : ¬ (((flagsB.getD 0 0) <<< 8 ||| flagsB.getD 1 0) &&& 128 > 0))]
  rw [if_neg (by omega : ¬ (((flagsB.getD 0 0) <<< 8 ||| flagsB.getD 1 0) &&& 64 > 0))]
  rw [if_neg (by omega : ¬ (((flagsB.getD 0 0) <<< 8 ||| flagsB.getD 1 0) &&& 32 > 0))]
  obtain ⟨n1, n2, n3, n4, n5, n6⟩ := hsw
  simp only [readFrameDispatch]
  rw [if_neg (fun hc => hT hc.1)]
  rw [if_neg (fun hc => hW hc.1)]
  rw [if_neg (by intro he; exact hT (by rw [he]; rfl))]
  rw [if_neg (by intro he; exact hW (by rw [he]; rfl))]
  rw [if_neg n1, if_neg n2, if_neg n3, if_neg n4, if_neg n5, if_neg n6]
  by_cases hp : payload = []
  · rw [if_pos (by rw [hsz, hp]; rfl)]
    rw [hp]
    rfl
  · rw [if_neg (by rw [hsz]; simpa using hp)]
    rw [if_neg (by simp [List.length_append]; intro hc; exact absurd hc hp)]
    rw [hsz, List.take_left, List.drop_left]

/-- C8 witness: the amended theorem applied to a concrete `ZZZZ` frame with
payload `[1, 2, 3]` followed by one trailing byte. -/
theorem unsupported_captured_verbatim_but_dropped_witness :
    readFrame ([90, 90, 90, 90] ++ [0, 0, 0, 3] ++ [0, 0] ++ ([1, 2, 3] ++ [9])) =
      .ok (.unsupported ⟨[90, 90, 90, 90], 0⟩ [1, 2, 3]) [9] ∧
    frameSize (.unsupported ⟨[90, 90, 90, 90], 0⟩ [1, 2, 3]) = 0 ∧
    frameEncode (.unsupported ⟨[90, 90, 90, 90], 0⟩ [1, 2, 3]) = [] := by
  have h := unsupported_captured_verbatim_but_dropped
    [90, 90, 90, 90] [0, 0, 0, 3] [0, 0] [1, 2, 3] [9]
    (by decide) (by decide) (by decide) (by decide) (by decide)
    (by decide) (by decide) (by decide) (by decide) (by decide)
    ⟨by decide, by decide, by decide, by decide, by decide, by decide⟩
    (by decide)
  simpa using h

/-! ## Support lemmas: what a successful scratch build contains -/

theorem bwrite_some {bs : List Nat} {w w2 : BufWriter} (h : bwrite bs w = some w2) :
    w2.data = w.data ++ bs := by
  unfold bwrite at h
  cases hb : w.budget with
  | zero => rw [hb] at h; exact Option.noConfusion h
  | succ b => rw [hb] at h; cases Option.some.inj h; rfl

theorem writeManyW_some : ∀ {ps : List (List Nat)} {w w2 : BufWriter},
    writeManyW ps w = some w2 → w2.data = w.data ++ ps.flatten := by
  intro ps
  induction ps with
  | nil => intro w w2 h; cases Option.some.inj h; simp
  | cons bs rest ih =>
    intro w w2 h
    unfold writeManyW at h
    cases hb : bwrite bs w with
    | none => rw [hb] at h; exact Option.noConfusion h
    | some w1 =>
      rw [hb] at h
      rw [ih h, bwrite_some hb]
      simp

theorem framesWrite_some : ∀ {fs : List Frame} {w w2 : BufWriter},
    framesWrite fs w = some w2 → w2.data = w.data ++ (fs.map frameEncode).flatten := by
  intro fs
  induction fs with
  | nil => intro w w2 h; cases Option.some.inj h; simp
  | cons f rest ih =>
    intro w w2 h
    unfold framesWrite at h
    cases hb : writeManyW (framePieces f) w with
    | none => rw [hb] at h; exact Option.noConfusion h
    | some w1 =>
      rw [hb] at h
      rw [ih h, writeManyW_some hb]
      simp [frameEncode]

theorem fmWrite_some : ∀ {fm : FramesMap} {w w2 : BufWriter},
    fmWrite fm w = some w2 → w2.data = w.data ++ fmEncode fm := by
  intro fm
  induction fm with
  | nil => intro w w2 h; cases Option.some.inj h; simp [fmEncode]
  | cons b rest ih =>
    intro w w2 h
    unfold fmWrite at h
    cases hb : framesWrite b.2 w with
    | none => rw [hb] at h; exact Option.noConfusion h
    | some w1 =>
      rw [hb] at h
      rw [ih h, framesWrite_some hb]
      simp [fmEncode]

theorem tagEncodeW_some {fm : FramesMap} {now : List Nat} {w w2 : BufWriter}
    (h : tagEncodeW fm now w = some w2) :
    w2.data = w.data ++ generateHeader (fmSize (setTextFrame fm idTDTG now) + Padding) ++
      fmEncode (setTextFrame fm idTDTG now) ++ List.replicate Padding 0 := by
  simp only [tagEncodeW] at h
  cases hb : bwrite (generateHeader (fmSize (setTextFrame fm idTDTG now) + Padding)) w with
  | none => rw [hb] at h; exact Option.noConfusion h
  | some w1 =>
    rw [hb] at h
    simp only [] at h
    cases hb2 : fmWrite (setTextFrame fm idTDTG now) w1 with
    | none => rw [hb2] at h; exact Option.noConfusion h
    | some wf =>
      rw [hb2] at h
      simp only [] at h
      rw [bwrite_some h, fmWrite_some hb2, bwrite_some hb]

theorem saveToW_some {fm : FramesMap} {now audio : List Nat} {w w2 : BufWriter}
    (h : saveToW fm now audio w = some w2) :
    w2.data = w.data ++ generateHeader (fmSize (setTextFrame fm idTDTG now) + Padding) ++
      fmEncode (setTextFrame fm idTDTG now) ++ List.replicate Padding 0 ++ audio := by
  unfold saveToW at h
  cases hb : tagEncodeW fm now w with
  | none => rw [hb] at h; exact Option.noConfusion h
  | some w1 =>
    rw [hb] at h
    rw [bwrite_some h, tagEncodeW_some hb]

/-! ## Claim C3 -/

/-- C3: on the Rebuild path, `saveNew` builds the complete new file image
(header, frames, padding, audio) in the scratch sink first — conjunct two:
a successful build contains exactly that image — and only then truncates and
overwrites the original file; whenever any write step of the build fails
(`budget` positions the failure at any write boundary), the error is returned
and the original disk bytes are unchanged (conjunct one). -/
theorem rebuild_stages_image_before_truncate (disk : List Nat) (fm : FramesMap)
    (now audio : List Nat) (budget : Nat) :
    (saveToW fm now audio ⟨[], budget⟩ = none →
      saveNewRun disk fm now audio budget = (none, disk)) ∧
    (∀ w, saveToW fm now audio ⟨[], budget⟩ = some w →
      saveNewRun disk fm now audio budget = (some (), w.data) ∧
      w.data = generateHeader (fmSize (setTextFrame fm idTDTG now) + Padding) ++
        fmEncode (setTextFrame fm idTDTG now) ++ List.replicate Padding 0 ++ audio) := by
  constructor
  · intro h
    unfold saveNewRun
    rw [h]
  · intro w h
    constructor
    · unfold saveNewRun
      rw [h]
      simp
    · have hd := saveToW_some h
      simpa using hd

/-- C3 witness: on disk bytes `[5, 6]`, a build whose very first write fails
(budget 0) returns the error with the disk unchanged, and a build with ample
budget replaces the disk with exactly the staged image. -/
theorem rebuild_stages_image_before_truncate_witness :
    saveNewRun [5, 6] [] [50] [7] 0 = (none, [5, 6]) ∧
    (saveNewRun [5, 6] [] [50] [7] 9).2 =
      generateHeader (fmSize (setTextFrame [] idTDTG [50]) + Padding) ++
        fmEncode (setTextFrame [] idTDTG [50]) ++ List.replicate Padding 0 ++ [7] := by
  constructor
  · exact (rebuild_stages_image_before_truncate [5, 6] [] [50] [7] 0).1 rfl
  · cases hw : saveToW [] [50] [7] ⟨[], 9⟩ with
    | none => exact absurd hw (by decide)
    | some w =>
      obtain ⟨h1, h2⟩ := (rebuild_stages_image_before_truncate [5, 6] [] [50] [7] 9).2 w hw
      rw [h1, h2]

/-! ## Support lemmas: `size()` agrees with the bytes `WriteTo` emits -/

theorem serialize_length (h : FrameHeader) (s : Nat) :
    (serialize h s).length = h.id.length + 6 := by
  simp [serialize, intToBytes]

theorem frameEncode_length {f : Frame} (hw : frameWF f = true) :
    (frameEncode f).length = frameSize f := by
  cases f with
  | text h txt =>
    simp only [frameWF, beq_iff_eq] at hw
    by_cases ht : h.id = idTRDA
    · simp [frameEncode, framePieces, frameSize, ht]
    · simp [frameEncode, framePieces, frameSize, ht, serialize_length, hw, utf8byte,
        frameLength]
      omega
  | userText h d t =>
    simp only [frameWF, beq_iff_eq] at hw
    simp [frameEncode, framePieces, frameSize, serialize_length, hw, utf8byte, nul,
      frameLength]
    omega
  | url h u =>
    simp only [frameWF, beq_iff_eq] at hw
    simp [frameEncode, framePieces, frameSize, serialize_length, hw, frameLength]
  | userURL h d u =>
    simp only [frameWF, beq_iff_eq] at hw
    simp [frameEncode, framePieces, frameSize, serialize_length, hw, utf8byte, nul,
      frameLength]
    omega
  | ufid h o i =>
    simp only [frameWF, beq_iff_eq] at hw
    simp [frameEncode, framePieces, frameSize, serialize_length, hw, nul, frameLength]
    omega
  | comment h lang d t =>
    simp only [frameWF, Bool.and_eq_true, beq_iff_eq] at hw
    simp [frameEncode, framePieces, frameSize, serialize_length, hw.1, hw.2, utf8byte,
      nul, frameLength]
    omega
  | unsupported h d =>
    simp [frameEncode, framePieces, frameSize]

theorem framesList_encode_length : ∀ {fs : List Frame}, fs.all frameWF = true →
    ((fs.map frameEncode).flatten).length = (fs.map frameSize).sum := by
  intro fs
  induction fs with
  | nil => intro _; rfl
  | cons f rest ih =>
    intro hw
    simp only [List.all_cons, Bool.and_eq_true] at hw
    simp [List.length_append, frameEncode_length hw.1, ih hw.2]

theorem fmEncode_length : ∀ {fm : FramesMap}, fmWF fm = true →
    (fmEncode fm).length = fmSize fm := by
  intro fm
  induction fm with
  | nil => intro _; rfl
  | cons b rest ih =>
    intro hw
    simp only [fmWF, List.all_cons, Bool.and_eq_true] at hw
    simp [fmEncode, fmSize, List.length_append, framesList_encode_length hw.1]
    have := ih (by simpa [fmWF] using hw.2)
    simp [fmEncode, fmSize] at this
    omega

/-! ## Support lemmas: the frame-store mutation -/

theorem fmSet_ne_nil (fm : FramesMap) (k : List Nat) (v : List Frame) :
    fmSet fm k v ≠ [] := by
  cases fm with
  | nil => simp [fmSet]
  | cons b rest => simp only [fmSet]; split <;> simp

theorem setTextFrame_ne_nil (fm : FramesMap) (name value : List Nat) :
    setTextFrame fm name value ≠ [] := by
  unfold setTextFrame
  cases frameNameToUserFrame name with
  | some u =>
    simp only []
    unfold setUserTextFrame
    cases fmLookup fm idTXXX with
    | none => exact fmSet_ne_nil fm idTXXX _
    | some l => exact fmSet_ne_nil fm idTXXX _
  | none =>
    simp only []
    cases fmLookup fm name with
    | none => exact fmSet_ne_nil fm name _
    | some l => exact fmSet_ne_nil fm name _

theorem bucket_set_WF {l : List Frame} {i : Nat} {f : Frame}
    (hl : l.all frameWF = true) (hf : frameWF f = true) :
    (l.set i f).all frameWF = true := by
  rw [List.all_eq_true] at hl ⊢
  intro x hx
  rcases List.mem_or_eq_of_mem_set hx with h | h
  · exact hl x h
  · rw [h]; exact hf

theorem fmSet_WF : ∀ {fm : FramesMap} {k : List Nat} {v : List Frame},
    fmWF fm = true → v.all frameWF = true → fmWF (fmSet fm k v) = true := by
  intro fm
  induction fm with
  | nil => intro k v _ hv; simpa [fmWF, fmSet] using hv
  | cons b rest ih =>
    intro k v hw hv
    simp only [fmWF, List.all_cons, Bool.and_eq_true] at hw
    simp only [fmSet]
    split
    · simp [fmWF, List.all_cons, hv]
      simpa [fmWF] using hw.2
    · simp [fmWF, List.all_cons, hw.1]
      have h2 := ih (k := k) (v := v) (by simpa [fmWF] using hw.2) hv
      simpa [fmWF] using h2

theorem fmLookup_WF : ∀ {fm : FramesMap} {k : List Nat} {l : List Frame},
    fmWF fm = true → fmLookup fm k = some l → l.all frameWF = true := by
  intro fm
  induction fm with
  | nil => intro k l _ hl; exact Option.noConfusion hl
  | cons b rest ih =>
    intro k l hw hl
    simp only [fmWF, List.all_cons, Bool.and_eq_true] at hw
    simp only [fmLookup] at hl
    split at hl
    · cases Option.some.inj hl; exact hw.1
    · exact ih (k := k) (by simpa [fmWF] using hw.2) hl

theorem setTextFrame_TDTG_WF {fm : FramesMap} {now : List Nat}
    (hw : fmWF fm = true) : fmWF (setTextFrame fm idTDTG now) = true := by
  have hfr : frameWF (Frame.text ⟨idTDTG, 0⟩ now) = true := rfl
  unfold setTextFrame
  have hn : frameNameToUserFrame idTDTG = none := rfl
  rw [hn]
  simp only []
  cases hb : fmLookup fm idTDTG with
  | none => exact fmSet_WF hw (by simp [hfr])
  | some l => exact fmSet_WF hw (bucket_set_WF (fmLookup_WF hw hb) hfr)

/-! ## Claim C4 -/

theorem overwrite_chain (c H E Z : List Nat) :
    List.take (H.length + E.length)
        (List.take H.length (H ++ List.drop H.length c) ++ E ++
          List.drop (H.length + E.length) (H ++ List.drop H.length c)) ++ Z ++
      List.drop (H.length + E.length + Z.length)
        (List.take H.length (H ++ List.drop H.length c) ++ E ++
          List.drop (H.length + E.length) (H ++ List.drop H.length c))
    = H ++ E ++ Z ++ c.drop (H.length + E.length + Z.length) := by
  have d1 : List.drop (H.length + E.length) (H ++ List.drop H.length c)
      = List.drop (H.length + E.length) c := by
    rw [List.drop_append_eq_append_drop]
    rw [List.drop_of_length_le (by omega)]
    rw [Nat.add_sub_cancel_left, List.drop_drop, Nat.add_comm, List.nil_append]
  rw [List.take_left, d1]
  have t2 : List.take (H.length + E.length)
      (H ++ E ++ List.drop (H.length + E.length) c) = H ++ E := by
    rw [show H.length + E.length = (H ++ E).length by simp, List.take_left]
  have d2 : List.drop (H.length + E.length + Z.length)
      (H ++ E ++ List.drop (H.length + E.length) c)
      = List.drop (H.length + E.length + Z.length) c := by
    rw [List.drop_append_eq_append_drop]
    rw [List.drop_of_length_le (by simp [List.length_append])]
    rw [show H.length + E.length + Z.length - (H ++ E).length = Z.length by
      simp [List.length_append]]
    rw [List.drop_drop, List.nil_append]
  rw [t2, d2]

/-- C4: with an existing tag of reserved size `S = f.header.size`, new frames
(after the `TDTG` timestamp update `Save` performs first) totalling `F ≤ S`,
and the non-empty store the update guarantees, `Save` takes the in-place
path: the file becomes a header still sized to `S`, all encoded frames, the
`S - F` zero-fill, and the untouched audio — byte-identical at its original
offset `10 + S` — with the file length unchanged. -/
theorem save_inplace_preserves_audio (f : GoFile) (now pre audio : List Nat)
    (hcontent : f.content = pre ++ audio)
    (hpre : pre.length = 10 + f.header.size)
    (hver : 0 < f.header.version)
    (hwf : fmWF f.frames = true)
    (hfit : fmSize (setTextFrame f.frames idTDTG now) ≤ f.header.size) :
    (goSave f now).content =
      generateHeader f.header.size ++ fmEncode (setTextFrame f.frames idTDTG now) ++
        List.replicate (f.header.size - fmSize (setTextFrame f.frames idTDTG now)) 0 ++
        audio ∧
    (goSave f now).content.length = f.content.length ∧
    (goSave f now).content.drop (10 + f.header.size) = audio := by
  have hne : setTextFrame f.frames idTDTG now ≠ [] := setTextFrame_ne_nil f.frames idTDTG now
  have hwf2 : fmWF (setTextFrame f.frames idTDTG now) = true := setTextFrame_TDTG_WF hwf
  have hEl : (fmEncode (setTextFrame f.frames idTDTG now)).length
      = fmSize (setTextFrame f.frames idTDTG now) := fmEncode_length hwf2
  have hH : (generateHeader f.header.size).length = 10 := rfl
  have hZ : (List.replicate (f.header.size - fmSize (setTextFrame f.frames idTDTG now))
      (0 : Nat)).length = f.header.size - fmSize (setTextFrame f.frames idTDTG now) :=
    List.length_replicate _ _
  have hdropA : (pre ++ audio).drop ((generateHeader f.header.size).length +
      (fmEncode (setTextFrame f.frames idTDTG now)).length +
      (List.replicate (f.header.size - fmSize (setTextFrame f.frames idTDTG now))
        (0 : Nat)).length) = audio := by
    rw [hH, hEl, hZ]
    rw [show 10 + fmSize (setTextFrame f.frames idTDTG now) +
      (f.header.size - fmSize (setTextFrame f.frames idTDTG now)) = pre.length by omega]
    exact List.drop_left pre audio
  have hmain : (goSave f now).content =
      generateHeader f.header.size ++ fmEncode (setTextFrame f.frames idTDTG now) ++
        List.replicate (f.header.size - fmSize (setTextFrame f.frames idTDTG now)) 0 ++
        audio := by
    simp only [goSave, saveInplace, fileWrite]
    rw [if_pos (⟨hver, hfit, hne⟩ :
      0 < f.header.version ∧ fmSize (setTextFrame f.frames idTDTG now) ≤ f.header.size ∧
        setTextFrame f.frames idTDTG now ≠ [])]
    simp only [List.take_zero, List.nil_append, Nat.zero_add]
    rw [overwrite_chain]
    rw [hcontent, hdropA]
  refine ⟨hmain, ?_, ?_⟩
  · rw [hmain, hcontent]
    simp only [List.length_append, hH, hEl, hZ]
    omega
  · rw [hmain]
    rw [show 10 + f.header.size = (generateHeader f.header.size ++
      fmEncode (setTextFrame f.frames idTDTG now) ++
      List.replicate (f.header.size - fmSize (setTextFrame f.frames idTDTG now)) 0).length
      by simp only [List.length_append, hH, hEl, hZ]; omega]
    exact List.drop_left _ audio

/-- C4 witness: the theorem applied to a concrete 24-byte file carrying a
reserved size of 12 and two audio bytes. -/
theorem save_inplace_preserves_audio_witness :
    (goSave ⟨List.replicate 22 3 ++ [7, 9], 0, 24, 22, ⟨1024, 0, 12⟩, []⟩ [50]).content =
      generateHeader 12 ++ fmEncode (setTextFrame [] idTDTG [50]) ++
        List.replicate 0 0 ++ [7, 9] ∧
    (goSave ⟨List.replicate 22 3 ++ [7, 9], 0, 24, 22, ⟨1024, 0, 12⟩, []⟩
        [50]).content.length = 24 ∧
    (goSave ⟨List.replicate 22 3 ++ [7, 9], 0, 24, 22, ⟨1024, 0, 12⟩, []⟩
        [50]).content.drop 22 = [7, 9] := by
  obtain ⟨h1, h2, h3⟩ := save_inplace_preserves_audio
    ⟨List.replicate 22 3 ++ [7, 9], 0, 24, 22, ⟨1024, 0, 12⟩, []⟩ [50]
    (List.replicate 22 3) [7, 9] rfl (by decide) (by decide) rfl (by decide)
  refine ⟨?_, ?_, ?_⟩
  · rw [h1]; decide
  · rw [h2]; decide
  · exact h3

/-! ## Support lemmas: frame-store lookups under mutation -/

theorem fmLookup_fmSet_self : ∀ (fm : FramesMap) (k : List Nat) (v : List Frame),
    fmLookup (fmSet fm k v) k = some v := by
  intro fm k v
  induction fm with
  | nil => simp [fmSet, fmLookup]
  | cons b rest ih =>
    simp only [fmSet]
    split
    · simp [fmLookup]
    · rename_i hk
      simp only [fmLookup]
      rw [if_neg hk]
      exact ih

theorem fmLookup_fmSet_other : ∀ (fm : FramesMap) (k v2 : List Nat) (v : List Frame),
    v2 ≠ k → fmLookup (fmSet fm k v) v2 = fmLookup fm v2 := by
  intro fm k v2 v hne
  induction fm with
  | nil =>
    simp only [fmSet, fmLookup]
    rw [if_neg (fun h => hne h.symm)]
  | cons b rest ih =>
    simp only [fmSet]
    split
    · rename_i hk
      simp only [fmLookup]
      rw [if_neg (fun h => hne h.symm), hk]
      rw [if_neg (fun h => hne h.symm)]
    · simp only [fmLookup]
      split
      · rfl
      · exact ih

theorem setTextFrame_TDTG_eq (fm : FramesMap) (now : List Nat) :
    setTextFrame fm idTDTG now =
      match fmLookup fm idTDTG with
      | none => fmSet fm idTDTG [Frame.text ⟨idTDTG, 0⟩ now]
      | some frames => fmSet fm idTDTG (frames.set 0 (Frame.text ⟨idTDTG, 0⟩ now)) := rfl

theorem setTextFrame_TDTG_lookup (fm : FramesMap) (now : List Nat)
    (hn : fmLookup fm idTDTG ≠ some []) :
    ∃ tail, fmLookup (setTextFrame fm idTDTG now) idTDTG
      = some (Frame.text ⟨idTDTG, 0⟩ now :: tail) := by
  rw [setTextFrame_TDTG_eq]
  cases hb : fmLookup fm idTDTG with
  | none => exact ⟨[], by rw [fmLookup_fmSet_self]⟩
  | some l =>
    cases l with
    | nil => exact absurd hb hn
    | cons x xs =>
      refine ⟨xs, ?_⟩
      simp only []
      rw [fmLookup_fmSet_self]
      simp

theorem setTextFrame_TDTG_lookup_other (fm : FramesMap) (now v2 : List Nat)
    (hid : v2 ≠ idTDTG) :
    fmLookup (setTextFrame fm idTDTG now) v2 = fmLookup fm v2 := by
  rw [setTextFrame_TDTG_eq]
  cases hb : fmLookup fm idTDTG with
  | none => exact fmLookup_fmSet_other fm idTDTG v2 _ hid
  | some l =>
    simp only []
    exact fmLookup_fmSet_other fm idTDTG v2 _ hid

theorem text_TDTG_size (n : List Nat) :
    frameSize (Frame.text ⟨idTDTG, 0⟩ n) = 11 + n.length := by
  simp [frameSize, frameLength, (by decide : ¬ (idTDTG = idTRDA))]
  omega

theorem text_TDTG_encode (n : List Nat) :
    frameEncode (Frame.text ⟨idTDTG, 0⟩ n)
      = serialize ⟨idTDTG, 0⟩ (n.length + 1) ++ [3] ++ n := by
  simp [frameEncode, framePieces, frameSize, utf8byte, frameLength,
    (by decide : ¬ (idTDTG = idTRDA))]
  rw [show 10 + n.length - 9 = n.length + 1 by omega]

theorem fmEncode_cons (k : List Nat) (v : List Frame) (rest : FramesMap) :
    fmEncode ((k, v) :: rest) = (v.map frameEncode).flatten ++ fmEncode rest := by
  simp [fmEncode]

theorem fmSize_cons (k : List Nat) (v : List Frame) (rest : FramesMap) :
    fmSize ((k, v) :: rest) = (v.map frameSize).sum + fmSize rest := by
  simp [fmSize]

theorem setTextFrame_cons_ne {k2 : List Nat} {v2 : List Frame} {rest : FramesMap}
    {val : List Nat} (hk : k2 ≠ idTDTG) :
    setTextFrame ((k2, v2) :: rest) idTDTG val
      = (k2, v2) :: setTextFrame rest idTDTG val := by
  rw [setTextFrame_TDTG_eq, setTextFrame_TDTG_eq]
  have hl : fmLookup ((k2, v2) :: rest) idTDTG = fmLookup rest idTDTG := by
    simp only [fmLookup]
    rw [if_neg hk]
  rw [hl]
  cases hb : fmLookup rest idTDTG with
  | none => simp only [fmSet]; rw [if_neg hk]
  | some l => simp only [fmSet]; rw [if_neg hk]

/-- Setting the `TDTG` text frame rewrites the encoded stream as a fixed
prefix, the timestamp bytes, and a fixed suffix, and shifts the total size by
exactly the timestamp length — the shape from which the two-timestamps
difference follows. -/
theorem setTDTG_encode_decomp (fm : FramesMap) (L : Nat) :
    fmLookup fm idTDTG ≠ some [] →
    ∃ P S2 k, ∀ n : List Nat, n.length = L →
      fmEncode (setTextFrame fm idTDTG n) = P ++ n ++ S2 ∧
      fmSize (setTextFrame fm idTDTG n) = k + n.length := by
  induction fm with
  | nil =>
    intro _
    refine ⟨serialize ⟨idTDTG, 0⟩ (L + 1) ++ [3], [], 11, ?_⟩
    intro n hn
    rw [setTextFrame_TDTG_eq]
    simp only [fmLookup, fmSet]
    constructor
    · rw [fmEncode_cons]
      simp [text_TDTG_encode, fmEncode, hn, List.append_assoc]
    · rw [fmSize_cons]
      simp [text_TDTG_size, fmSize]
  | cons b rest ih =>
    intro hn
    obtain ⟨k2, v2⟩ := b
    by_cases hk : k2 = idTDTG
    · have hlk : fmLookup ((k2, v2) :: rest) idTDTG = some v2 := by
        simp only [fmLookup]
        rw [if_pos hk]
      cases v2 with
      | nil => exact absurd hlk hn
      | cons x xs =>
        refine ⟨serialize ⟨idTDTG, 0⟩ (L + 1) ++ [3],
          (xs.map frameEncode).flatten ++ fmEncode rest,
          11 + (xs.map frameSize).sum + fmSize rest, ?_⟩
        intro n hnl
        rw [setTextFrame_TDTG_eq, hlk]
        simp only [List.set_cons_zero]
        have hset : fmSet ((k2, x :: xs) :: rest) idTDTG
            (Frame.text ⟨idTDTG, 0⟩ n :: xs)
            = (idTDTG, Frame.text ⟨idTDTG, 0⟩ n :: xs) :: rest := by
          simp only [fmSet]
          rw [if_pos hk]
        rw [hset]
        constructor
        · rw [fmEncode_cons]
          simp [text_TDTG_encode, hnl, List.append_assoc]
        · rw [fmSize_cons]
          simp [text_TDTG_size, hnl]
          omega
    · have hlk : fmLookup ((k2, v2) :: rest) idTDTG = fmLookup rest idTDTG := by
        simp only [fmLookup]
        rw [if_neg hk]
      obtain ⟨P, S2, k, hP⟩ := ih (by rw [← hlk]; exact hn)
      refine ⟨(v2.map frameEncode).flatten ++ P, S2,
        (v2.map frameSize).sum + k, ?_⟩
      intro n hnl
      rw [setTextFrame_cons_ne hk, fmEncode_cons, fmSize_cons]
      obtain ⟨hE, hS⟩ := hP n hnl
      constructor
      · rw [hE]
        simp [List.append_assoc]
      · rw [hS]
        omega

theorem tagEncode_diff (t : Tag) (n1 n2 : List Nat)
    (hlen : n1.length = n2.length) (hne : n1 ≠ n2)
    (hb : fmLookup t.frames idTDTG ≠ some []) :
    (tagEncode t n1).2 ≠ (tagEncode t n2).2 := by
  obtain ⟨P, S2, k, hP⟩ := setTDTG_encode_decomp t.frames n1.length hb
  obtain ⟨hE1, hS1⟩ := hP n1 rfl
  obtain ⟨hE2, hS2⟩ := hP n2 hlen.symm
  intro hEq
  simp only [tagEncode] at hEq
  rw [hE1, hE2, hS1, hS2, hlen] at hEq
  have h1 := List.append_cancel_right hEq
  have h2 := List.append_cancel_left h1
  have h3 := List.append_cancel_right h2
  exact hne (List.append_cancel_left h3)

/-! ## Claim C10 -/

/-- C10: both `Tag.Encode` and `Save` first stamp the `TDTG` bucket with the
formatted current UTC time before sizing or writing anything — the returned
store holds the fresh timestamp at the head of the `TDTG` bucket (conjuncts
one and three, on either save path), every bucket other than `TDTG` is left
exactly as it was (conjuncts two and four), and two encodings of the same tag
at times whose 19-byte stamps differ produce different byte streams
(conjunct five), so encoding is not a pure function of the tag's prior
contents.  The `TDTG ≠ some []` hypotheses exclude the empty-but-present
bucket on which the Go code would panic (`frames[0]` of an empty slice) and
which the package never stores. -/
theorem save_and_encode_stamp_TDTG :
    (∀ (t : Tag) (now : List Nat), fmLookup t.frames idTDTG ≠ some [] →
      ∃ tail, fmLookup ((tagEncode t now).1).frames idTDTG
        = some (Frame.text ⟨idTDTG, 0⟩ now :: tail)) ∧
    (∀ (t : Tag) (now v2 : List Nat), v2 ≠ idTDTG →
      fmLookup ((tagEncode t now).1).frames v2 = fmLookup t.frames v2) ∧
    (∀ (f : GoFile) (now : List Nat), fmLookup f.frames idTDTG ≠ some [] →
      ∃ tail, fmLookup (goSave f now).frames idTDTG
        = some (Frame.text ⟨idTDTG, 0⟩ now :: tail)) ∧
    (∀ (f : GoFile) (now v2 : List Nat), v2 ≠ idTDTG →
      fmLookup (goSave f now).frames v2 = fmLookup f.frames v2) ∧
    (∀ (t : Tag) (n1 n2 : List Nat), n1.length = n2.length → n1 ≠ n2 →
      fmLookup t.frames idTDTG ≠ some [] →
      (tagEncode t n1).2 ≠ (tagEncode t n2).2) := by
  refine ⟨?_, ?_, ?_, ?_, ?_⟩
  · intro t now h
    exact setTextFrame_TDTG_lookup t.frames now h
  · intro t now v2 hv
    exact setTextFrame_TDTG_lookup_other t.frames now v2 hv
  · intro f now h
    simp only [goSave]
    by_cases hc : 0 < f.header.version ∧
        fmSize (setTextFrame f.frames idTDTG now) ≤ f.header.size ∧
        setTextFrame f.frames idTDTG now ≠ []
    · rw [if_pos hc]
      simp only [saveInplace, fileWrite]
      exact setTextFrame_TDTG_lookup f.frames now h
    · rw [if_neg hc]
      simp only [saveNewPure, tagEncode]
      obtain ⟨tl, he⟩ := setTextFrame_TDTG_lookup f.frames now h
      exact setTextFrame_TDTG_lookup _ now (by rw [he]; simp)
  · intro f now v2 hv
    simp only [goSave]
    by_cases hc : 0 < f.header.version ∧
        fmSize (setTextFrame f.frames idTDTG now) ≤ f.header.size ∧
        setTextFrame f.frames idTDTG now ≠ []
    · rw [if_pos hc]
      simp only [saveInplace, fileWrite]
      exact setTextFrame_TDTG_lookup_other f.frames now v2 hv
    · rw [if_neg hc]
      simp only [saveNewPure, tagEncode]
      rw [setTextFrame_TDTG_lookup_other _ now v2 hv]
      exact setTextFrame_TDTG_lookup_other f.frames now v2 hv
  · intro t n1 n2 hlen hne hb
    exact tagEncode_diff t n1 n2 hlen hne hb

/-- C10 witness: two encodings of one concrete tag at timestamps differing in
their final byte produce different bytes. -/
theorem save_and_encode_stamp_TDTG_witness :
    (tagEncode ⟨⟨1024, 0, 12⟩, []⟩ [50]).2 ≠ (tagEncode ⟨⟨1024, 0, 12⟩, []⟩ [51]).2 := by
  exact save_and_encode_stamp_TDTG.2.2.2.2 ⟨⟨1024, 0, 12⟩, []⟩ [50] [51] rfl
    (by decide) (by decide)
